import Mathlib

/-!
A shallow embedding of the boot orchestrator in `tenders/hvt/hvt_main.c`
(solo5 hvt tender). Pure C helper functions become Lean functions;
`main`'s sequential control flow becomes an explicit run function that
returns the ordered trace of externally visible events together with the
process outcome. Machine `size_t` arithmetic is modelled as `Nat` with
explicit reduction modulo `2^64` where the C code can wrap.

Plugins (`struct hvt_module`, linked into the `modules` section) are
modelled as a list of descriptors carrying Lean functions for their
`setup` / `handle_cmdarg` / `usage` ops; return code `0` means success /
claimed, exactly as the C call sites test. Collaborator functions that
are not part of this repository's file (`open`, `elf_load_note`,
`mft_validate`, `hvt_mem_size`, `hvt_vcpu_loop`, signal installation)
are oracles supplied through an `Env` structure; `main` only branches on
the success/failure results it actually checks.
-/

/-- A manifest entry: name, device type and the `attached` flag mutated
by plugins (`struct mft_entry` as consumed by `hvt_main.c`). -/
structure MftEntry where
  name : String
  type : Nat
  attached : Bool
  deriving DecidableEq, Repr

/-- The manifest: an ordered collection of entries (`mft->entries`
entries in `mft->e[]`). -/
structure Mft where
  entries : List MftEntry
  deriving DecidableEq, Repr

/-- First device type value of the reserved subrange. The audit in
`setup_modules` skips entries with `type >= MFT_RESERVED_FIRST`; the
constant itself lives in the manifest ABI header outside this file
(value `1 << 30` there); only the threshold comparison matters here. -/
def MFT_RESERVED_FIRST : Nat := 2 ^ 30

/-- The ops table of a plugin (`struct hvt_module_ops`): `setup` is
mandatory (asserted non-NULL), `handle_cmdarg` and `usage` optional.
Return code `0` from `setup` means success; return code `0` from
`handle_cmdarg` means the token was claimed. Both receive the manifest
by pointer and may mutate it, so they return the updated manifest. -/
structure PluginOps where
  setup : Mft → Int × Mft
  handle_cmdarg : Option (String → Mft → Int × Mft)
  usage : Option String

/-- A registered plugin (`struct hvt_module`): name plus ops. -/
structure Plugin where
  name : String
  ops : PluginOps

/-- Externally visible events of a run of `main`, in program order. -/
inductive Event where
  | usageShown
  | versionShown
  | missingKernel
  | imageOpen (path : String)
  | manifestLoad
  | manifestValidate
  | memSet (bytes : Nat)
  | cmdargCall (i : Nat) (tok : String)
  | invalidOpt (tok : String)
  | parseOk
  | sigInstall
  | hvtInit (memSize : Nat)
  | imageLoad
  | fdClose
  | vcpuInit
  | setupCall (i : Nat)
  | moduleFailed (name : String) (usageText : Option String)
  | auditDiag (name : String) (ty : Nat)
  | auditAbort
  | bootInfo (residual : List String)
  | privDrop
  | noPrivWarn
  | vcpuLoop
  deriving DecidableEq, Repr

/-- Process outcome. `exited c` covers `exit(c)`, `err(x)(1, ...)` and
the final `return hvt_vcpu_loop(hvt)`. `assertFailed` models the
`assert(elf_filename == *argv)` aborting. `nullArg` marks the (from
`main` unreachable) path where `handle_cmdarg` would be invoked on a
NULL argument pointer. -/
inductive Outcome where
  | exited (code : Nat)
  | assertFailed
  | nullArg
  deriving DecidableEq, Repr

/-- `*s[0] == '-'` on a C string: the first character is a dash. -/
def startsWithDash (s : String) : Bool :=
  match s.data with
  | c :: _ => c = '-'
  | [] => false

/-- Match a literal character sequence (an `sscanf` literal directive)
against the front of the input; return the remaining input on success. -/
def matchLit : List Char → List Char → Option (List Char)
  | [], cs => some cs
  | _ :: _, [] => none
  | l :: ls, c :: cs => if c = l then matchLit ls cs else none

/-- `strncmp("--mem=", s, 6) == 0`. -/
def isMemOpt (s : String) : Bool :=
  (matchLit ['-', '-', 'm', 'e', 'm', '='] s.data).isSome

/-- The whitespace set skipped by an `sscanf` numeric conversion
(C `isspace`: space, \t, \n, \v, \f, \r). -/
def cIsSpace (c : Char) : Bool :=
  c = ' ' || c = '\t' || c = '\n' || c.toNat = 11 || c.toNat = 12 || c = '\r'

/-- Value of a decimal digit string. -/
def decValue (ds : List Char) : Nat :=
  ds.foldl (fun a c => 10 * a + (c.toNat - 48)) 0

/-- Parse a non-empty prefix of decimal digits; `none` on no digit
(an `sscanf` matching failure). -/
def scanDigits (cs : List Char) : Option Nat :=
  let ds := cs.takeWhile Char.isDigit
  if ds.isEmpty then none else some (decValue ds)

/-- The `%zd` conversion of `sscanf`: skip whitespace, optional sign,
then a non-empty run of decimal digits. Returns the mathematical value;
the caller reduces it to the `size_t` bit pattern. (For values outside
the signed 64-bit range the C conversion is undefined; the claims below
stay inside it.) -/
def scanZd (cs : List Char) : Option Int :=
  let cs := cs.dropWhile cIsSpace
  match cs with
  | [] => none
  | c :: rest =>
    if c = '-' then (scanDigits rest).map (fun n => -(n : Int))
    else if c = '+' then (scanDigits rest).map (fun n => (n : Int))
    else (scanDigits (c :: rest)).map (fun n => (n : Int))

/-- `size_t` modulus. -/
def SIZE_MOD : Nat := 2 ^ 64

/-- `handle_mem` (hvt_main.c lines 91-100): `sscanf(cmdarg,
"--mem=%zd", &mem)`, then `mem = mem << 20`, then
`if (rc != 1 || mem <= 0) errx(1, ...)` else `*mem_size = mem`.
`mem` is a `size_t`, so the parsed value is reduced to its unsigned
64-bit bit pattern, the shift wraps modulo `2^64`, and `mem <= 0` on an
unsigned quantity holds exactly when `mem = 0`. `none` models the
`errx(1, "Malformed argument to --mem")` exit. -/
def handle_mem (cmdarg : String) : Option Nat :=
  match matchLit ['-', '-', 'm', 'e', 'm', '='] cmdarg.data with
  | none => none
  | some rest =>
    match scanZd rest with
    | none => none
    | some v =>
      let mem : Nat := (v % (SIZE_MOD : Int)).toNat
      let mem := mem * 2 ^ 20 % SIZE_MOD
      if mem = 0 then none else some mem

/-- Worker for `handle_cmdarg` (hvt_main.c lines 74-84): walk the module
registry from `__start_modules`, at absolute index `i`, invoking each
present `handle_cmdarg` op on the token until one returns `0`. Emits a
`cmdargCall` event per invocation; returns the C return code (`0` =
claimed, `-1` = unclaimed) and the threaded manifest. -/
def handleCmdargGo (cmdarg : String) : List Plugin → Nat → Mft →
    List Event × Int × Mft
  | [], _, m => ([], -1, m)
  | p :: rest, i, m =>
    match p.ops.handle_cmdarg with
    | none => handleCmdargGo cmdarg rest (i + 1) m
    | some f =>
      let r := f cmdarg m
      if r.1 = 0 then ([Event.cmdargCall i cmdarg], 0, r.2)
      else
        let t := handleCmdargGo cmdarg rest (i + 1) r.2
        (Event.cmdargCall i cmdarg :: t.1, t.2.1, t.2.2)

/-- `handle_cmdarg` (hvt_main.c lines 74-84). -/
def handle_cmdarg (plugins : List Plugin) (cmdarg : String) (mft : Mft) :
    List Event × Int × Mft :=
  handleCmdargGo cmdarg plugins 0 mft

/-- The setup half of `setup_modules` (hvt_main.c lines 47-57): invoke
each module's `setup` in registry order; on the first nonzero return,
emit the module-failure diagnostic (name plus its `usage()` text when
present) and stop (`exit(1)`, modelled as `none`). -/
def runSetups : List Plugin → Nat → Mft → List Event × Option Mft
  | [], _, m => ([], some m)
  | p :: rest, i, m =>
    let r := p.ops.setup m
    if r.1 = 0 then
      let t := runSetups rest (i + 1) r.2
      (Event.setupCall i :: t.1, t.2)
    else
      ([Event.setupCall i, Event.moduleFailed p.name p.ops.usage], none)

/-- The audit half of `setup_modules` (hvt_main.c lines 59-68): walk the
manifest entries, skip reserved types, emit a diagnostic for each entry
not attached, accumulating the `fail` flag. -/
def auditLoop : List MftEntry → Bool → List Event × Bool
  | [], fail => ([], fail)
  | e :: rest, fail =>
    if MFT_RESERVED_FIRST ≤ e.type then auditLoop rest fail
    else if e.attached = false then
      let t := auditLoop rest true
      (Event.auditDiag e.name e.type :: t.1, t.2)
    else auditLoop rest fail

/-- `setup_modules` (hvt_main.c lines 45-72): run all setups, then the
attachment audit; `errx(1, "All declared devices must be attached...")`
when the fail flag is set is modelled by the `auditAbort` event and a
`none` result. `none` corresponds to the process exiting with code 1. -/
def setup_modules (plugins : List Plugin) (mft : Mft) :
    List Event × Option Mft :=
  match runSetups plugins 0 mft with
  | (evs, none) => (evs, none)
  | (evs, some mft') =>
    let a := auditLoop mft'.entries false
    if a.2 then (evs ++ a.1 ++ [Event.auditAbort], none)
    else (evs ++ a.1, some mft')

/-- Result of the first command-line pass (hvt_main.c lines 155-178).
`ok elf idx` carries the image path token and its position in the
original argument vector (C keeps the pointer `elf_filename` into
`argv`; the position stands for that pointer identity). -/
inductive Pass1Res where
  | helpExit
  | versionExit
  | missingOperand
  | ok (elf : String) (idx : Nat)
  deriving DecidableEq, Repr

/-- Worker for pass 1, with `i` the absolute index of the list head in
the original argument vector. Loop body: stop at the first token not
beginning with `-`; consume `--` and stop; `--help` prints usage and
exits 1; `--version` prints version and exits 0; any other `-`-token is
skipped. A NULL cursor afterwards is the missing-KERNEL diagnostic
followed by usage (exit 1). -/
def pass1Go : List String → Nat → List Event × Pass1Res
  | [], _ => ([Event.missingKernel, Event.usageShown], Pass1Res.missingOperand)
  | tok :: rest, i =>
    if startsWithDash tok then
      if tok = "--" then
        match rest with
        | [] => ([Event.missingKernel, Event.usageShown], Pass1Res.missingOperand)
        | e :: _ => ([], Pass1Res.ok e (i + 1))
      else if tok = "--help" then ([Event.usageShown], Pass1Res.helpExit)
      else if tok = "--version" then ([Event.versionShown], Pass1Res.versionExit)
      else pass1Go rest (i + 1)
    else ([], Pass1Res.ok tok i)

/-- Pass 1 over the argument vector (already past the program name). -/
def pass1 (argv : List String) : List Event × Pass1Res :=
  pass1Go argv 0

/-- Result of the second pass: a fatal parse error (exit 1), the
NULL-token dereference path, or success carrying the final memory size,
the threaded manifest and the remaining argument vector (the cursor
`argv` at loop exit). -/
inductive Pass2Res where
  | fatalExit
  | nullDeref
  | ok (mem : Nat) (mft : Mft) (rest : List String)
  deriving DecidableEq

/-- Pass 2 (hvt_main.c lines 202-227). Loop body for each `-`-token:
consume `--` and stop; if the token begins with `--mem=`, run
`handle_mem` (fatal on malformed) and consume it; then — with no `else`
between the two checks — offer the *current* cursor token (which has
already advanced past a matched `--mem=`) to the plugins via
`handle_cmdarg`, consuming it when claimed; if neither check matched,
print the invalid-option diagnostic and usage (exit 1). When `--mem=`
matched and was the last token, the `handle_cmdarg` call would
dereference a NULL argument pointer (`nullDeref`; unreachable from
`main` because pass 1 established a later non-option token). -/
def pass2Go (plugins : List Plugin) :
    Nat → Mft → Nat → List String → List Event × Pass2Res
  | 0, mft, mem, l => ([], Pass2Res.ok mem mft l)
  | _ + 1, mft, mem, [] => ([], Pass2Res.ok mem mft [])
  | fuel + 1, mft, mem, tok :: rest =>
    if startsWithDash tok then
      if tok = "--" then ([], Pass2Res.ok mem mft rest)
      else if isMemOpt tok then
        match handle_mem tok with
        | none => ([], Pass2Res.fatalExit)
        | some m =>
          match rest with
          | [] => ([Event.memSet m], Pass2Res.nullDeref)
          | tok2 :: rest2 =>
            let c := handle_cmdarg plugins tok2 mft
            if c.2.1 = 0 then
              let t := pass2Go plugins fuel c.2.2 m rest2
              (Event.memSet m :: c.1 ++ t.1, t.2)
            else
              let t := pass2Go plugins fuel c.2.2 m (tok2 :: rest2)
              (Event.memSet m :: c.1 ++ t.1, t.2)
      else
        let c := handle_cmdarg plugins tok mft
        if c.2.1 = 0 then
          let t := pass2Go plugins fuel c.2.2 mem rest
          (c.1 ++ t.1, t.2)
        else
          (c.1 ++ [Event.invalidOpt tok, Event.usageShown], Pass2Res.fatalExit)
    else ([], Pass2Res.ok mem mft (tok :: rest))

/-- Pass 2 entry point. The fuel argument of `pass2Go` only serves to
make the loop structurally recursive; each iteration consumes at least
one token, so fuel equal to the list length never runs out (and the
fuel-0 fallback coincides with the loop-exit result on the empty
list, the only list it can be reached with). -/
def pass2 (plugins : List Plugin) (mft : Mft) (mem : Nat)
    (l : List String) : List Event × Pass2Res :=
  pass2Go plugins l.length mft mem l

/-- Oracles for the collaborator calls `main` makes and checks but whose
bodies live outside this file: `open` (success/failure),
`elf_load_note` (manifest found or not), `mft_validate`,
`hvt_mem_size` (module-provided size adjustment), the two `sigaction`
installs, and the `hvt_vcpu_loop` return value. -/
structure Env where
  openOk : String → Bool
  loadNote : String → Option Mft
  validateOk : Mft → Bool
  adjMemSize : Nat → Nat
  sigintOk : Bool
  sigtermOk : Bool
  vcpuLoopRet : Nat

/-- `mem_size = 0x20000000` (hvt_main.c line 139). -/
def DEFAULT_MEM : Nat := 0x20000000

/-- `main` (hvt_main.c lines 137-263), from after the program-name strip
onward: pass 1, image open, manifest load and validation, pass 2, the
`assert(elf_filename == *argv)` cursor check (pointer identity, hence
position equality) and consumption of the image-path token, signal
handler installation, `hvt_mem_size`/`hvt_init`, `elf_load` followed
immediately by `close(elf_fd)`, `hvt_vcpu_init`, `setup_modules`,
`hvt_boot_info_init` with the residual arguments, then either
`hvt_drop_privileges()` (build with HVT_DROP_PRIVILEGES, `dropPriv`)
or the two warnings, and finally `hvt_vcpu_loop`. -/
def mainRun (plugins : List Plugin) (env : Env) (dropPriv : Bool)
    (argv : List String) : List Event × Outcome :=
  match pass1 argv with
  | (evs1, Pass1Res.helpExit) => (evs1, Outcome.exited 1)
  | (evs1, Pass1Res.versionExit) => (evs1, Outcome.exited 0)
  | (evs1, Pass1Res.missingOperand) => (evs1, Outcome.exited 1)
  | (evs1, Pass1Res.ok elf idx) =>
    let evs := evs1 ++ [Event.imageOpen elf]
    if env.openOk elf = false then (evs, Outcome.exited 1)
    else
      let evs := evs ++ [Event.manifestLoad]
      match env.loadNote elf with
      | none => (evs, Outcome.exited 1)
      | some mft0 =>
        let evs := evs ++ [Event.manifestValidate]
        if env.validateOk mft0 = false then (evs, Outcome.exited 1)
        else
          match pass2 plugins mft0 DEFAULT_MEM argv with
          | (evs2, Pass2Res.fatalExit) => (evs ++ evs2, Outcome.exited 1)
          | (evs2, Pass2Res.nullDeref) => (evs ++ evs2, Outcome.nullArg)
          | (evs2, Pass2Res.ok mem mftP rest) =>
            let evs := evs ++ evs2
            if argv.length - rest.length = idx then
              let evs := evs ++ [Event.parseOk]
              let residual := rest.tail
              if env.sigintOk = false then (evs, Outcome.exited 1)
              else if env.sigtermOk = false then (evs, Outcome.exited 1)
              else
                let evs := evs ++ [Event.sigInstall]
                let mem2 := env.adjMemSize mem
                let evs := evs ++ [Event.hvtInit mem2, Event.imageLoad,
                  Event.fdClose, Event.vcpuInit]
                match setup_modules plugins mftP with
                | (sevs, none) => (evs ++ sevs, Outcome.exited 1)
                | (sevs, some _) =>
                  let evs := evs ++ sevs ++ [Event.bootInfo residual]
                  if dropPriv then
                    (evs ++ [Event.privDrop, Event.vcpuLoop],
                      Outcome.exited env.vcpuLoopRet)
                  else
                    (evs ++ [Event.noPrivWarn, Event.vcpuLoop],
                      Outcome.exited env.vcpuLoopRet)
            else (evs, Outcome.assertFailed)

/-- The set of manifest entries the attachment audit complains about:
non-reserved type and not attached. -/
def unattached (entries : List MftEntry) : List MftEntry :=
  entries.filter (fun e => decide (e.type < MFT_RESERVED_FIRST) && !e.attached)

/-- Fixture: a plugin whose `handle_cmdarg` is present but claims no
token, and whose `setup` succeeds without touching the manifest. -/
def recPlugin : Plugin :=
  ⟨"rec", ⟨fun m => (0, m), some (fun _ m => (-1, m)), none⟩⟩

/-- Fixture: a plugin claiming exactly the token `--x`. -/
def claimX : Plugin :=
  ⟨"xmod", ⟨fun m => (0, m),
    some (fun t m => (if t = "--x" then 0 else -1, m)), some "x usage"⟩⟩

/-- Fixture: a plugin claiming every token. -/
def claimAnyA : Plugin :=
  ⟨"amod", ⟨fun m => (0, m), some (fun _ m => (0, m)), none⟩⟩

/-- Fixture: a second plugin claiming every token. -/
def claimAnyB : Plugin :=
  ⟨"bmod", ⟨fun m => (0, m), some (fun _ m => (0, m)), some "b usage"⟩⟩

/-- Fixture: a plugin whose `setup` fails. -/
def failPlugin : Plugin :=
  ⟨"failmod", ⟨fun m => (1, m), none, some "fail usage"⟩⟩

/-- Fixture: the empty manifest. -/
def mftEmpty : Mft := ⟨[]⟩

/-- Fixture: a manifest declaring one non-reserved, unattached network
device `net0` (type 2 in the manifest ABI). -/
def mftNet0 : Mft := ⟨[⟨"net0", 2, false⟩]⟩

/-- Fixture: a fully coooperative environment whose manifest is empty. -/
def env0 : Env := ⟨fun _ => true, fun _ => some mftEmpty, fun _ => true, id, true, true, 0⟩

/-- Fixture: a fully cooperative environment whose manifest declares
the unattached `net0`. -/
def envNet0 : Env := ⟨fun _ => true, fun _ => some mftNet0, fun _ => true, id, true, true, 0⟩

/-- Events that can occur before `main` reaches the signal-handler /
memory / image-load / module-setup stage: everything pass 1, the image
open, the manifest load and validation, pass 2 and the cursor assert
can emit. -/
def EarlyEvent (e : Event) : Prop :=
  e = Event.usageShown ∨ e = Event.versionShown ∨ e = Event.missingKernel
  ∨ (∃ p, e = Event.imageOpen p) ∨ e = Event.manifestLoad
  ∨ e = Event.manifestValidate ∨ (∃ n, e = Event.memSet n)
  ∨ (∃ k t, e = Event.cmdargCall k t) ∨ (∃ t, e = Event.invalidOpt t)
  ∨ e = Event.parseOk

/-- The fixed event prefix of every run of `main` that gets past the
two passes, the cursor assert and the signal-handler installation:
pass-1 events, image open, manifest load and validation, pass-2
events, the cursor check, signal installation, `hvt_init`, image load,
the immediate close of the image file descriptor, and VCPU setup. -/
def preEvents (e1 : List Event) (elf : String) (e2 : List Event)
    (m2 : Nat) : List Event :=
  e1 ++ [Event.imageOpen elf, Event.manifestLoad, Event.manifestValidate]
    ++ e2 ++ [Event.parseOk, Event.sigInstall, Event.hvtInit m2,
      Event.imageLoad, Event.fdClose, Event.vcpuInit]

/-! ### Lemmas about the scanning helpers -/

theorem matchLit_some {ls cs r : List Char} (h : matchLit ls cs = some r) :
    cs = ls ++ r := by
  induction ls generalizing cs with
  | nil =>
    simp only [matchLit, Option.some.injEq] at h
    simp [h]
  | cons l ls ih =>
    cases cs with
    | nil => simp [matchLit] at h
    | cons c cs =>
      by_cases hc : c = l
      · subst hc
        simp only [matchLit, if_pos rfl] at h
        simpa using ih h
      · simp [matchLit, hc] at h

theorem matchLit_self_append (ls cs : List Char) :
    matchLit ls (ls ++ cs) = some cs := by
  induction ls with
  | nil => simp [matchLit]
  | cons l ls ih => simp [matchLit, ih]

theorem takeWhile_append_all {p : Char → Bool} {ds sfx : List Char}
    (hds : ∀ c ∈ ds, p c = true)
    (hsfx : ∀ c, sfx.head? = some c → p c = false) :
    (ds ++ sfx).takeWhile p = ds := by
  induction ds with
  | nil =>
    cases sfx with
    | nil => simp
    | cons c cs => simp [List.takeWhile_cons, hsfx c rfl]
  | cons d ds ih =>
    have hd : p d = true := hds d (by simp)
    simp only [List.cons_append, List.takeWhile_cons, hd, if_pos]
    rw [ih (fun c hc => hds c (by simp [hc]))]

theorem digit_toNat_bounds {c : Char} (h : c.isDigit = true) :
    48 ≤ c.toNat ∧ c.toNat ≤ 57 := by
  simp [Char.isDigit] at h
  obtain ⟨h1, h2⟩ := h
  exact ⟨h1, h2⟩

theorem digit_not_space {c : Char} (h : c.isDigit = true) :
    cIsSpace c = false := by
  obtain ⟨h1, h2⟩ := digit_toNat_bounds h
  cases hc : cIsSpace c
  · rfl
  · exfalso
    simp only [cIsSpace, Bool.or_eq_true, decide_eq_true_eq] at hc
    rcases hc with ((((e1 | e2) | e3) | e4) | e5) | e6
    · subst e1; exact absurd (And.intro h1 h2) (by decide)
    · subst e2; exact absurd (And.intro h1 h2) (by decide)
    · subst e3; exact absurd (And.intro h1 h2) (by decide)
    · omega
    · omega
    · subst e6; exact absurd (And.intro h1 h2) (by decide)

theorem digit_ne_dash {c : Char} (h : c.isDigit = true) : c ≠ '-' := by
  intro hc; subst hc; simp [Char.isDigit] at h

theorem digit_ne_plus {c : Char} (h : c.isDigit = true) : c ≠ '+' := by
  intro hc; subst hc; simp [Char.isDigit] at h

theorem scanZd_digits {ds sfx : List Char} (hne : ds ≠ [])
    (hd : ∀ c ∈ ds, c.isDigit = true)
    (hs : ∀ c ∈ sfx.take 1, c.isDigit = false) :
    scanZd (ds ++ sfx) = some ((decValue ds : Int)) := by
  obtain ⟨d, ds', rfl⟩ := List.exists_cons_of_ne_nil hne
  have hdd : d.isDigit = true := hd d (by simp)
  have hs' : ∀ c, sfx.head? = some c → c.isDigit = false := by
    intro c hc
    cases sfx with
    | nil => simp at hc
    | cons x xs =>
      simp only [List.head?_cons, Option.some.injEq] at hc
      rw [← hc]
      exact hs x (by simp)
  have hdrop : ((d :: ds') ++ sfx).dropWhile cIsSpace = d :: (ds' ++ sfx) := by
    simp [List.dropWhile_cons, digit_not_space hdd]
  have htake : ((d :: ds') ++ sfx).takeWhile Char.isDigit = d :: ds' :=
    takeWhile_append_all hd hs'
  simp only [scanZd, hdrop]
  rw [if_neg (digit_ne_dash hdd), if_neg (digit_ne_plus hdd)]
  simp only [scanDigits]
  rw [show d :: (ds' ++ sfx) = (d :: ds') ++ sfx from rfl, htake]
  simp

theorem handle_mem_digits {ds sfx : List Char} (hne : ds ≠ [])
    (hd : ∀ c ∈ ds, c.isDigit = true)
    (hs : ∀ c ∈ sfx.take 1, c.isDigit = false)
    (hpos : 0 < decValue ds) (hlt : decValue ds < 2 ^ 44) :
    handle_mem ⟨'-' :: '-' :: 'm' :: 'e' :: 'm' :: '=' :: (ds ++ sfx)⟩
      = some (decValue ds * 2 ^ 20) := by
  simp only [handle_mem]
  rw [show ('-' :: '-' :: 'm' :: 'e' :: 'm' :: '=' :: (ds ++ sfx))
      = ['-', '-', 'm', 'e', 'm', '='] ++ (ds ++ sfx) from rfl]
  rw [matchLit_self_append]
  dsimp only
  rw [scanZd_digits hne hd hs]
  dsimp only
  have hlt64 : ((decValue ds : Int)) < (SIZE_MOD : Int) := by
    have h1 : (decValue ds : Int) < ((2 : Int) ^ 64) := by
      exact_mod_cast lt_trans hlt (by norm_num : (2 : Nat) ^ 44 < 2 ^ 64)
    simpa [SIZE_MOD] using h1
  have hcast : ((decValue ds : Int) % (SIZE_MOD : Int)).toNat = decValue ds := by
    rw [Int.emod_eq_of_lt (Int.natCast_nonneg _) hlt64]
    simp
  rw [hcast]
  have hbound : decValue ds * 2 ^ 20 < SIZE_MOD := by
    have h1 : decValue ds * 2 ^ 20 < 2 ^ 44 * 2 ^ 20 :=
      Nat.mul_lt_mul_of_lt_of_le hlt (le_refl _) (by norm_num)
    calc decValue ds * 2 ^ 20 < 2 ^ 44 * 2 ^ 20 := h1
      _ = SIZE_MOD := by norm_num [SIZE_MOD]
  rw [Nat.mod_eq_of_lt hbound]
  rw [if_neg (Nat.mul_pos hpos (by norm_num)).ne']

/-- C2: parsing `--mem=512` yields exactly `512 * 2^20`; `--mem=0` and
`--mem=abc` are rejected as malformed (the model's `none`, i.e.
`errx(1)` without writing `*mem_size`). But `--mem=-1` is NOT rejected:
`%zd` stores the two's-complement pattern `2^64 - 1` into the unsigned
`size_t`, the left shift wraps to `2^64 - 2^20 ≠ 0`, and the `mem <= 0`
test on an unsigned quantity cannot see a negative value, so the
claimed fatal exit does not happen and the memory size is set to
`2^64 - 2^20` bytes. -/
theorem mem_option_eval :
    handle_mem "--mem=512" = some (512 * 2 ^ 20)
    ∧ handle_mem "--mem=0" = none
    ∧ handle_mem "--mem=abc" = none
    ∧ handle_mem "--mem=-1" = some (2 ^ 64 - 2 ^ 20) := by
  refine ⟨by decide, by decide, by decide, by decide⟩

/-- C10 (counterexample): two tokens of the claimed form
`--mem=<digits><suffix>` that `handle_mem` rejects rather than
accepting: `--mem=0M` (the shifted value is 0, caught by the `<= 0`
test) and `--mem=17592186044416M` (digits = `2^44`, whose left shift
wraps to 0 modulo `2^64`). -/
theorem mem_digits_zero_or_wrap_rejected :
    handle_mem "--mem=0M" = none
    ∧ handle_mem "--mem=17592186044416M" = none := by
  refine ⟨by decide, by decide⟩

/-- C10 (amended): for every token `--mem=<digits><suffix>` whose
digit string has value strictly between 0 and `2^44`, and whose suffix
does not begin with a digit, `handle_mem` accepts the token and yields
`<digits> * 2^20`, ignoring the trailing characters. -/
theorem mem_trailing_chars_ignored {ds sfx : List Char} (hne : ds ≠ [])
    (hd : ∀ c ∈ ds, c.isDigit = true)
    (hs : ∀ c ∈ sfx.take 1, c.isDigit = false)
    (hpos : 0 < decValue ds) (hlt : decValue ds < 2 ^ 44) :
    handle_mem ⟨'-' :: '-' :: 'm' :: 'e' :: 'm' :: '=' :: (ds ++ sfx)⟩
      = some (decValue ds * 2 ^ 20) :=
  handle_mem_digits hne hd hs hpos hlt

/-- Witness for C10's theorem at `--mem=512M`. -/
theorem mem_trailing_chars_ignored_witness :
    handle_mem "--mem=512M" = some (512 * 2 ^ 20) := by
  have h := @mem_trailing_chars_ignored ['5', '1', '2'] ['M']
    (by decide) (by decide) (by decide) (by decide) (by decide)
  exact h

/-! ### Lemmas about the plugin option dispatcher -/

theorem handleCmdargGo_events (tok : String) (ps : List Plugin) :
    ∀ (base : Nat) (m : Mft),
    ∀ e ∈ (handleCmdargGo tok ps base m).1,
    ∃ k, e = Event.cmdargCall k tok ∧ base ≤ k ∧ k < base + ps.length := by
  induction ps with
  | nil => intro base m e he; simp [handleCmdargGo] at he
  | cons p rest ih =>
    intro base m e he
    cases hop : p.ops.handle_cmdarg with
    | none =>
      simp only [handleCmdargGo, hop] at he
      obtain ⟨k, hk, h1, h2⟩ := ih (base + 1) m e he
      exact ⟨k, hk, by omega, by simp only [List.length_cons]; omega⟩
    | some f =>
      simp only [handleCmdargGo, hop] at he
      by_cases hr : (f tok m).1 = 0
      · rw [if_pos hr] at he
        simp only [List.mem_singleton] at he
        exact ⟨base, he, le_refl _, by simp⟩
      · rw [if_neg hr] at he
        simp only [List.mem_cons] at he
        rcases he with rfl | he
        · exact ⟨base, rfl, le_refl _, by simp⟩
        · obtain ⟨k, hk, h1, h2⟩ := ih (base + 1) (f tok m).2 e he
          exact ⟨k, hk, by omega, by simp only [List.length_cons]; omega⟩

theorem handleCmdargGo_claims (tok : String) (ps : List Plugin) :
    ∀ (base : Nat) (m : Mft) (p : Nat) (hp : p < ps.length)
      (f : String → Mft → Int × Mft),
    (ps.get ⟨p, hp⟩).ops.handle_cmdarg = some f →
    (∀ m', (f tok m').1 = 0) →
    (handleCmdargGo tok ps base m).2.1 = 0 ∧
    ∀ k s, Event.cmdargCall k s ∈ (handleCmdargGo tok ps base m).1 →
      k ≤ base + p := by
  induction ps with
  | nil => intro base m p hp; simp at hp
  | cons q rest ih =>
    intro base m p hp f hget hclaims
    cases hop : q.ops.handle_cmdarg with
    | none =>
      cases p with
      | zero =>
        simp only [List.get] at hget
        rw [hop] at hget
        cases hget
      | succ p' =>
        have hp' : p' < rest.length := by
          simp only [List.length_cons] at hp
          omega
        have hget' : (rest.get ⟨p', hp'⟩).ops.handle_cmdarg = some f := by
          simpa [List.get] using hget
        obtain ⟨hrc, hk⟩ := ih (base + 1) m p' hp' f hget' hclaims
        constructor
        · simpa [handleCmdargGo, hop] using hrc
        · intro k s hk'
          simp only [handleCmdargGo, hop] at hk'
          have := hk k s hk'
          omega
    | some g =>
      by_cases hr : (g tok m).1 = 0
      · constructor
        · simp [handleCmdargGo, hop, hr]
        · intro k s hks
          simp only [handleCmdargGo, hop] at hks
          rw [if_pos hr] at hks
          simp only [List.mem_singleton, Event.cmdargCall.injEq] at hks
          omega
      · cases p with
        | zero =>
          exfalso
          simp only [List.get] at hget
          rw [hop] at hget
          have hgf : g = f := by
            injection hget
          apply hr
          rw [hgf]
          exact hclaims m
        | succ p' =>
          have hp' : p' < rest.length := by
            simp only [List.length_cons] at hp
            omega
          have hget' : (rest.get ⟨p', hp'⟩).ops.handle_cmdarg = some f := by
            simpa [List.get] using hget
          obtain ⟨hrc, hk⟩ := ih (base + 1) (g tok m).2 p' hp' f hget' hclaims
          constructor
          · simp only [handleCmdargGo, hop]
            rw [if_neg hr]
            exact hrc
          · intro k s hks
            simp only [handleCmdargGo, hop] at hks
            rw [if_neg hr] at hks
            simp only [List.mem_cons, Event.cmdargCall.injEq] at hks
            rcases hks with ⟨rfl, _⟩ | hks
            · omega
            · have := hk k s hks
              omega

/-- C4: in the dispatcher `handle_cmdarg`, for every token and every
pair of registered plugins whose `handle_cmdarg` ops would both claim
the token (return 0 on every manifest state), the earlier plugin (or an
even earlier claimer) claims it — the dispatcher returns 0 and every
invocation it makes is of a plugin with index at most `i` — and, in
particular, the later plugin `j` is never invoked for that token. -/
theorem earlier_plugin_claims_first
    (plugins : List Plugin) (tok : String) (mft : Mft)
    (i j : Nat) (hi : i < plugins.length) (hj : j < plugins.length)
    (hij : i < j)
    (f : String → Mft → Int × Mft)
    (hfi : (plugins.get ⟨i, hi⟩).ops.handle_cmdarg = some f)
    (hfc : ∀ m, (f tok m).1 = 0)
    (g : String → Mft → Int × Mft)
    (hgj : (plugins.get ⟨j, hj⟩).ops.handle_cmdarg = some g)
    (hgc : ∀ m, (g tok m).1 = 0) :
    (handle_cmdarg plugins tok mft).2.1 = 0
    ∧ (∀ k s, Event.cmdargCall k s ∈ (handle_cmdarg plugins tok mft).1 → k ≤ i)
    ∧ ∀ s, Event.cmdargCall j s ∉ (handle_cmdarg plugins tok mft).1 := by
  obtain ⟨h0, hbound⟩ := handleCmdargGo_claims tok plugins 0 mft i hi f hfi hfc
  refine ⟨h0, ?_, ?_⟩
  · intro k s hks
    have := hbound k s hks
    omega
  · intro s hs
    have := hbound j s hs
    omega

/-- Witness for C4's theorem: two always-claiming plugins; the
dispatcher claims via the first and never invokes the second. -/
theorem earlier_plugin_claims_first_witness :
    (handle_cmdarg [claimAnyA, claimAnyB] "--t" mftEmpty).2.1 = 0
    ∧ Event.cmdargCall 1 "--t" ∉ (handle_cmdarg [claimAnyA, claimAnyB] "--t" mftEmpty).1 := by
  have h := earlier_plugin_claims_first [claimAnyA, claimAnyB] "--t" mftEmpty
    0 1 (by simp) (by simp) (by omega)
    (fun _ m => (0, m)) rfl (fun _ => rfl)
    (fun _ m => (0, m)) rfl (fun _ => rfl)
  exact ⟨h.1, h.2.2 "--t"⟩

/-! ### Lemmas about module setup and the attachment audit -/

theorem auditLoop_eq (es : List MftEntry) :
    ∀ b, auditLoop es b =
      ((unattached es).map (fun e => Event.auditDiag e.name e.type),
        b || !(unattached es).isEmpty) := by
  induction es with
  | nil => intro b; simp [auditLoop, unattached]
  | cons e rest ih =>
    intro b
    by_cases hres : MFT_RESERVED_FIRST ≤ e.type
    · have hnlt : ¬ e.type < MFT_RESERVED_FIRST := Nat.not_lt.mpr hres
      have hfilter : unattached (e :: rest) = unattached rest := by
        simp [unattached, List.filter_cons, hnlt]
      rw [hfilter]
      simp only [auditLoop, if_pos hres]
      exact ih b
    · have hlt : e.type < MFT_RESERVED_FIRST := Nat.lt_of_not_le hres
      by_cases hatt : e.attached = false
      · have hfilter : unattached (e :: rest) = e :: unattached rest := by
          simp [unattached, List.filter_cons, hlt, hatt]
        rw [hfilter]
        simp only [auditLoop, if_neg hres, if_pos hatt]
        rw [ih true]
        simp
      · have hatt' : e.attached = true := by
          cases ha : e.attached
          · exact absurd ha hatt
          · rfl
        have hfilter : unattached (e :: rest) = unattached rest := by
          simp [unattached, List.filter_cons, hatt']
        rw [hfilter]
        simp only [auditLoop, if_neg hres, hatt']
        rw [if_neg (by decide : ¬(true : Bool) = false)]
        exact ih b

theorem runSetups_shape (ps : List Plugin) :
    ∀ (b : Nat) (m : Mft),
    (∃ mft', runSetups ps b m =
        ((List.range' b ps.length).map Event.setupCall, some mft'))
    ∨ (∃ k, ∃ hk : k < ps.length, runSetups ps b m =
        ((List.range' b (k + 1)).map Event.setupCall
          ++ [Event.moduleFailed (ps.get ⟨k, hk⟩).name
                (ps.get ⟨k, hk⟩).ops.usage], none)) := by
  induction ps with
  | nil =>
    intro b m
    left
    exact ⟨m, by simp [runSetups]⟩
  | cons p rest ih =>
    intro b m
    by_cases hr : (p.ops.setup m).1 = 0
    · rcases ih (b + 1) (p.ops.setup m).2 with ⟨mft', hm⟩ | ⟨k, hk, hm⟩
      · left
        refine ⟨mft', ?_⟩
        simp only [runSetups, hr, if_pos, hm, List.length_cons,
          List.range'_succ, List.map_cons]
      · right
        refine ⟨k + 1, by simp only [List.length_cons]; omega, ?_⟩
        simp only [runSetups, hr, if_pos, hm, List.range'_succ,
          List.map_cons, List.cons_append, List.get]
    · right
      refine ⟨0, by simp, ?_⟩
      simp only [runSetups, if_neg hr, List.range'_succ, List.range'_zero,
        List.map_cons, List.map_nil, List.get, List.nil_append,
        List.cons_append]

/-- C5: after all plugin `setup` calls have succeeded, the attachment
audit in `setup_modules` emits one diagnostic per manifest entry of
non-reserved type whose `attached` flag is false — exactly the filtered
list `unattached`, in manifest order, collected rather than aborting at
the first — and the process then aborts with exit code 1 (result
`none`, after the `auditAbort` event) if and only if that list is
non-empty. -/
theorem audit_reports_exactly_unattached
    (plugins : List Plugin) (mft : Mft) (evs : List Event) (mftF : Mft)
    (h : runSetups plugins 0 mft = (evs, some mftF)) :
    (setup_modules plugins mft).1
      = evs ++ (unattached mftF.entries).map (fun e => Event.auditDiag e.name e.type)
        ++ (if (unattached mftF.entries).isEmpty then []
            else [Event.auditAbort])
    ∧ ((setup_modules plugins mft).2 = none ↔ unattached mftF.entries ≠ []) := by
  simp only [setup_modules, h]
  rw [auditLoop_eq]
  by_cases he : (unattached mftF.entries).isEmpty
  · rw [if_pos he]
    have hnil : unattached mftF.entries = [] := by
      simpa [List.isEmpty_iff] using he
    simp [he, hnil]
  · rw [if_neg he]
    have hne : unattached mftF.entries ≠ [] := by
      simpa [List.isEmpty_iff] using he
    simp only [he, Bool.false_or, Bool.not_false, Bool.or_true]
    simp [hne, List.append_assoc]

/-- Witness for C5's theorem: one succeeding plugin and the manifest
declaring unattached `net0`; the audit aborts. -/
theorem audit_reports_exactly_unattached_witness :
    (setup_modules [recPlugin] mftNet0).2 = none := by
  have h := audit_reports_exactly_unattached [recPlugin] mftNet0
    [Event.setupCall 0] mftNet0 (by decide)
  exact h.2.mpr (by decide)

/-- C8: `setup_modules` invokes every plugin's `setup` in registry
order. Either all succeed — the setup events are exactly
`setupCall 0, ..., setupCall (n-1)` in order — or there is a first
failing plugin `k`: exactly plugins `0..k` were invoked, the trace ends
with the module-failure diagnostic carrying plugin `k`'s name and its
optional usage text, the process exits with code 1 (result `none`), and
no attachment-audit diagnostic was emitted (the audit runs only after
every setup has succeeded). -/
theorem setup_order_first_failure (plugins : List Plugin) (mft : Mft) :
    (∃ mftF, runSetups plugins 0 mft
        = ((List.range plugins.length).map Event.setupCall, some mftF))
    ∨ (∃ k, ∃ hk : k < plugins.length,
        runSetups plugins 0 mft
          = ((List.range (k + 1)).map Event.setupCall
              ++ [Event.moduleFailed (plugins.get ⟨k, hk⟩).name
                    (plugins.get ⟨k, hk⟩).ops.usage], none)
        ∧ (setup_modules plugins mft).2 = none
        ∧ ∀ n t, Event.auditDiag n t ∉ (setup_modules plugins mft).1) := by
  rcases runSetups_shape plugins 0 mft with ⟨mftF, hm⟩ | ⟨k, hk, hm⟩
  · left
    exact ⟨mftF, by rw [hm, List.range_eq_range']⟩
  · right
    refine ⟨k, hk, ?_, ?_, ?_⟩
    · rw [hm, List.range_eq_range']
    · simp [setup_modules, hm]
    · intro n t hmem
      simp only [setup_modules, hm] at hmem
      simp only [List.mem_append, List.mem_map, List.mem_singleton] at hmem
      rcases hmem with ⟨a, _, ha⟩ | ha
      · cases ha
      · cases ha

/-! ### Lemmas about the two command-line passes -/

theorem runSetups_events (ps : List Plugin) (b : Nat) (m : Mft) :
    ∀ e ∈ (runSetups ps b m).1,
    (∃ i, e = Event.setupCall i) ∨ (∃ n u, e = Event.moduleFailed n u) := by
  intro e he
  rcases runSetups_shape ps b m with ⟨mftF, hm⟩ | ⟨k, hk, hm⟩
  · rw [hm] at he
    simp only [List.mem_map] at he
    obtain ⟨a, _, ha⟩ := he
    exact Or.inl ⟨a, ha.symm⟩
  · rw [hm] at he
    simp only [List.mem_append, List.mem_map, List.mem_singleton] at he
    rcases he with ⟨a, _, ha⟩ | ha
    · exact Or.inl ⟨a, ha.symm⟩
    · exact Or.inr ⟨_, _, ha⟩

theorem setup_modules_events (ps : List Plugin) (m : Mft) :
    ∀ e ∈ (setup_modules ps m).1,
    (∃ i, e = Event.setupCall i) ∨ (∃ n u, e = Event.moduleFailed n u)
    ∨ (∃ n t, e = Event.auditDiag n t) ∨ e = Event.auditAbort := by
  intro e he
  rcases hrs : runSetups ps 0 m with ⟨evs, r⟩
  cases r with
  | none =>
    simp only [setup_modules, hrs] at he
    rcases runSetups_events ps 0 m e (by rw [hrs]; exact he) with h | h
    · exact Or.inl h
    · exact Or.inr (Or.inl h)
  | some mft' =>
    simp only [setup_modules, hrs, auditLoop_eq] at he
    by_cases hf : (unattached mft'.entries).isEmpty
    · simp only [hf, Bool.not_true, Bool.or_false, if_neg] at he
      rw [if_neg (by simp)] at he
      simp only [List.mem_append, List.mem_map] at he
      rcases he with he | ⟨a, _, ha⟩
      · rcases runSetups_events ps 0 m e (by rw [hrs]; exact he) with h | h
        · exact Or.inl h
        · exact Or.inr (Or.inl h)
      · exact Or.inr (Or.inr (Or.inl ⟨_, _, ha.symm⟩))
    · have hf' : (!(unattached mft'.entries).isEmpty) = true := by
        simp [hf]
      simp only [hf', Bool.or_true, if_pos] at he
      simp only [List.mem_append, List.mem_map, List.mem_singleton] at he
      rcases he with (he | ⟨a, _, ha⟩) | ha
      · rcases runSetups_events ps 0 m e (by rw [hrs]; exact he) with h | h
        · exact Or.inl h
        · exact Or.inr (Or.inl h)
      · exact Or.inr (Or.inr (Or.inl ⟨_, _, ha.symm⟩))
      · exact Or.inr (Or.inr (Or.inr ha))

theorem pass1Go_events (l : List String) :
    ∀ i, ∀ e ∈ (pass1Go l i).1,
    e = Event.missingKernel ∨ e = Event.usageShown ∨ e = Event.versionShown := by
  induction l with
  | nil =>
    intro i e he
    simp only [pass1Go, List.mem_cons, List.mem_singleton] at he
    tauto
  | cons tok rest ih =>
    intro i e he
    simp only [pass1Go] at he
    by_cases hd : startsWithDash tok = true
    · rw [if_pos hd] at he
      by_cases hdd : tok = "--"
      · rw [if_pos hdd] at he
        cases rest with
        | nil =>
          simp only [List.mem_cons, List.mem_singleton] at he
          tauto
        | cons x xs => simp at he
      · rw [if_neg hdd] at he
        by_cases hh : tok = "--help"
        · rw [if_pos hh] at he
          simp only [List.mem_singleton] at he
          tauto
        · rw [if_neg hh] at he
          by_cases hv : tok = "--version"
          · rw [if_pos hv] at he
            simp only [List.mem_singleton] at he
            tauto
          · rw [if_neg hv] at he
            exact ih (i + 1) e he
    · rw [if_neg hd] at he
      simp at he

theorem pass1Go_ok_get (l : List String) :
    ∀ i es s k, pass1Go l i = (es, Pass1Res.ok s k) →
    i ≤ k ∧ l.get? (k - i) = some s := by
  induction l with
  | nil =>
    intro i es s k h
    simp only [pass1Go, Prod.mk.injEq] at h
    cases h.2
  | cons tok rest ih =>
    intro i es s k h
    simp only [pass1Go] at h
    by_cases hd : startsWithDash tok = true
    · rw [if_pos hd] at h
      by_cases hdd : tok = "--"
      · rw [if_pos hdd] at h
        cases rest with
        | nil =>
          simp only [Prod.mk.injEq] at h
          cases h.2
        | cons x xs =>
          simp only [Prod.mk.injEq, Pass1Res.ok.injEq] at h
          obtain ⟨-, hs, hk⟩ := h
          subst hs
          subst hk
          refine ⟨by omega, ?_⟩
          rw [show i + 1 - i = 1 from by omega]
          simp
      · rw [if_neg hdd] at h
        by_cases hh : tok = "--help"
        · rw [if_pos hh] at h
          simp only [Prod.mk.injEq] at h
          cases h.2
        · rw [if_neg hh] at h
          by_cases hv : tok = "--version"
          · rw [if_pos hv] at h
            simp only [Prod.mk.injEq] at h
            cases h.2
          · rw [if_neg hv] at h
            obtain ⟨h1, h2⟩ := ih (i + 1) es s k h
            refine ⟨by omega, ?_⟩
            rw [show k - i = (k - (i + 1)) + 1 from by omega]
            simpa using h2
    · rw [if_neg hd] at h
      simp only [Prod.mk.injEq, Pass1Res.ok.injEq] at h
      obtain ⟨-, hs, hk⟩ := h
      subst hs
      subst hk
      simp

theorem handle_cmdarg_events (plugins : List Plugin) (tok : String) (m : Mft) :
    ∀ e ∈ (handle_cmdarg plugins tok m).1,
    ∃ k, e = Event.cmdargCall k tok ∧ k < plugins.length := by
  intro e he
  obtain ⟨k, hk, h1, h2⟩ := handleCmdargGo_events tok plugins 0 m e he
  exact ⟨k, hk, by omega⟩

theorem pass2Go_events (plugins : List Plugin) :
    ∀ fuel mft mem l, ∀ e ∈ (pass2Go plugins fuel mft mem l).1,
    (∃ n, e = Event.memSet n) ∨ (∃ k t, e = Event.cmdargCall k t)
    ∨ (∃ t, e = Event.invalidOpt t) ∨ e = Event.usageShown := by
  intro fuel
  induction fuel with
  | zero => intro mft mem l e he; simp [pass2Go] at he
  | succ fuel ih =>
    intro mft mem l e he
    cases l with
    | nil => simp [pass2Go] at he
    | cons tok rest =>
      simp only [pass2Go] at he
      by_cases hd : startsWithDash tok = true
      · rw [if_pos hd] at he
        by_cases hdd : tok = "--"
        · rw [if_pos hdd] at he
          simp at he
        · rw [if_neg hdd] at he
          by_cases hm : isMemOpt tok = true
          · rw [if_pos hm] at he
            cases hhm : handle_mem tok with
            | none =>
              rw [hhm] at he
              simp at he
            | some m =>
              rw [hhm] at he
              dsimp only at he
              cases rest with
              | nil =>
                dsimp only at he
                simp only [List.mem_singleton] at he
                exact Or.inl ⟨m, he⟩
              | cons tok2 rest2 =>
                dsimp only at he
                by_cases hc : (handle_cmdarg plugins tok2 mft).2.1 = 0
                · rw [if_pos hc] at he
                  simp only [List.mem_cons, List.mem_append] at he
                  rcases he with (rfl | he) | he
                  · exact Or.inl ⟨m, rfl⟩
                  · obtain ⟨k, hk, -⟩ := handle_cmdarg_events plugins tok2 mft e he
                    exact Or.inr (Or.inl ⟨k, tok2, hk⟩)
                  · exact ih _ _ _ e he
                · rw [if_neg hc] at he
                  simp only [List.mem_cons, List.mem_append] at he
                  rcases he with (rfl | he) | he
                  · exact Or.inl ⟨m, rfl⟩
                  · obtain ⟨k, hk, -⟩ := handle_cmdarg_events plugins tok2 mft e he
                    exact Or.inr (Or.inl ⟨k, tok2, hk⟩)
                  · exact ih _ _ _ e he
          · rw [if_neg hm] at he
            by_cases hc : (handle_cmdarg plugins tok mft).2.1 = 0
            · rw [if_pos hc] at he
              simp only [List.mem_append] at he
              rcases he with he | he
              · obtain ⟨k, hk, -⟩ := handle_cmdarg_events plugins tok mft e he
                exact Or.inr (Or.inl ⟨k, tok, hk⟩)
              · exact ih _ _ _ e he
            · rw [if_neg hc] at he
              simp only [List.mem_append, List.mem_cons, List.not_mem_nil,
                or_false] at he
              rcases he with he | he | he
              · obtain ⟨k, hk, -⟩ := handle_cmdarg_events plugins tok mft e he
                exact Or.inr (Or.inl ⟨k, tok, hk⟩)
              · exact Or.inr (Or.inr (Or.inl ⟨tok, he⟩))
              · exact Or.inr (Or.inr (Or.inr he))
      · rw [if_neg hd] at he
        simp at he

theorem pass2Go_ok_suffix (plugins : List Plugin) :
    ∀ fuel mft mem l m' mf rest,
    (pass2Go plugins fuel mft mem l).2 = Pass2Res.ok m' mf rest →
    rest <:+ l := by
  intro fuel
  induction fuel with
  | zero =>
    intro mft mem l m' mf rest h
    simp only [pass2Go, Pass2Res.ok.injEq] at h
    obtain ⟨-, -, hr⟩ := h
    subst hr
    exact List.suffix_refl l
  | succ fuel ih =>
    intro mft mem l m' mf rest h
    cases l with
    | nil =>
      simp only [pass2Go, Pass2Res.ok.injEq] at h
      obtain ⟨-, -, hr⟩ := h
      subst hr
      exact List.suffix_refl []
    | cons tok rest0 =>
      simp only [pass2Go] at h
      by_cases hd : startsWithDash tok = true
      · rw [if_pos hd] at h
        by_cases hdd : tok = "--"
        · rw [if_pos hdd] at h
          dsimp only at h
          simp only [Pass2Res.ok.injEq] at h
          obtain ⟨-, -, hr⟩ := h
          subst hr
          exact List.suffix_cons tok rest0
        · rw [if_neg hdd] at h
          by_cases hm : isMemOpt tok = true
          · rw [if_pos hm] at h
            cases hhm : handle_mem tok with
            | none =>
              rw [hhm] at h
              dsimp only at h
              cases h
            | some m =>
              rw [hhm] at h
              dsimp only at h
              cases rest0 with
              | nil =>
                dsimp only at h
                cases h
              | cons tok2 rest2 =>
                dsimp only at h
                by_cases hc : (handle_cmdarg plugins tok2 mft).2.1 = 0
                · rw [if_pos hc] at h
                  dsimp only at h
                  have hr := ih _ _ _ _ _ _ h
                  exact hr.trans ((List.suffix_cons tok2 rest2).trans
                    (List.suffix_cons tok (tok2 :: rest2)))
                · rw [if_neg hc] at h
                  dsimp only at h
                  have hr := ih _ _ _ _ _ _ h
                  exact hr.trans (List.suffix_cons tok (tok2 :: rest2))
          · rw [if_neg hm] at h
            by_cases hc : (handle_cmdarg plugins tok mft).2.1 = 0
            · rw [if_pos hc] at h
              dsimp only at h
              have hr := ih _ _ _ _ _ _ h
              exact hr.trans (List.suffix_cons tok rest0)
            · rw [if_neg hc] at h
              dsimp only at h
              cases h
      · rw [if_neg hd] at h
        dsimp only at h
        simp only [Pass2Res.ok.injEq] at h
        obtain ⟨-, -, hr⟩ := h
        subst hr
        exact List.suffix_refl _

/-! ### The shape of a run of main -/

theorem earlyEvent_of_pass1 {l : List String} {i : Nat} {e : Event}
    (h : e ∈ (pass1Go l i).1) : EarlyEvent e := by
  rcases pass1Go_events l i e h with h | h | h <;> simp [EarlyEvent, h]

theorem earlyEvent_of_pass2 {plugins : List Plugin} {fuel : Nat} {mft : Mft}
    {mem : Nat} {l : List String} {e : Event}
    (h : e ∈ (pass2Go plugins fuel mft mem l).1) : EarlyEvent e := by
  rcases pass2Go_events plugins fuel mft mem l e h with ⟨n, h⟩ | ⟨k, t, h⟩ | ⟨t, h⟩ | h <;>
    simp [EarlyEvent, h]

theorem earlyEvent_not_late {e : Event} (h : EarlyEvent e) :
    (∀ r, e ≠ Event.bootInfo r) ∧ e ≠ Event.privDrop ∧ e ≠ Event.fdClose
    ∧ e ≠ Event.imageLoad ∧ (∀ i, e ≠ Event.setupCall i)
    ∧ (∀ n t, e ≠ Event.auditDiag n t) ∧ e ≠ Event.vcpuLoop
    ∧ e ≠ Event.noPrivWarn := by
  rcases h with h | h | h | ⟨p, h⟩ | h | h | ⟨n, h⟩ | ⟨k, t, h⟩ | ⟨t, h⟩ | h <;>
    subst h <;>
    exact ⟨fun r => by simp, by simp, by simp, by simp, fun i => by simp,
      fun n t => by simp, by simp, by simp⟩

theorem earlyEvent_mem_single {x : Event} (hx : EarlyEvent x) :
    ∀ e ∈ [x], EarlyEvent e := by
  intro e he
  simp only [List.mem_singleton] at he
  subst he
  exact hx

theorem earlyEvent_mem_append {l1 l2 : List Event}
    (g1 : ∀ e ∈ l1, EarlyEvent e) (g2 : ∀ e ∈ l2, EarlyEvent e) :
    ∀ e ∈ l1 ++ l2, EarlyEvent e := by
  intro e he
  rcases List.mem_append.mp he with h | h
  · exact g1 e h
  · exact g2 e h

theorem mainRun_shape (plugins : List Plugin) (env : Env) (dp : Bool)
    (argv : List String) :
    (∀ e ∈ (mainRun plugins env dp argv).1, EarlyEvent e)
    ∨ (∃ e1 elf idx mft0 e2 mem mftP rest,
        pass1 argv = (e1, Pass1Res.ok elf idx)
        ∧ env.openOk elf = true
        ∧ env.loadNote elf = some mft0
        ∧ env.validateOk mft0 = true
        ∧ pass2 plugins mft0 DEFAULT_MEM argv = (e2, Pass2Res.ok mem mftP rest)
        ∧ argv.length - rest.length = idx
        ∧ (((setup_modules plugins mftP).2 = none
            ∧ mainRun plugins env dp argv
              = (preEvents e1 elf e2 (env.adjMemSize mem)
                  ++ (setup_modules plugins mftP).1, Outcome.exited 1))
          ∨ (∃ mftF, (setup_modules plugins mftP).2 = some mftF
            ∧ mainRun plugins env dp argv
              = (preEvents e1 elf e2 (env.adjMemSize mem)
                  ++ (setup_modules plugins mftP).1
                  ++ [Event.bootInfo rest.tail]
                  ++ (if dp then [Event.privDrop, Event.vcpuLoop]
                      else [Event.noPrivWarn, Event.vcpuLoop]),
                  Outcome.exited env.vcpuLoopRet)))) := by
  rcases h1 : pass1 argv with ⟨e1, r1⟩
  have h1' : pass1Go argv 0 = (e1, r1) := h1
  have hP1 : ∀ e ∈ e1, EarlyEvent e := fun e he =>
    earlyEvent_of_pass1 (show e ∈ (pass1Go argv 0).1 by rw [h1']; exact he)
  cases r1 with
  | helpExit =>
    left
    intro e he
    simp only [mainRun, h1] at he
    exact hP1 e he
  | versionExit =>
    left
    intro e he
    simp only [mainRun, h1] at he
    exact hP1 e he
  | missingOperand =>
    left
    intro e he
    simp only [mainRun, h1] at he
    exact hP1 e he
  | ok elf idx =>
    have hA : ∀ e ∈ [Event.imageOpen elf], EarlyEvent e :=
      earlyEvent_mem_single (by simp [EarlyEvent])
    have hB : ∀ e ∈ [Event.manifestLoad], EarlyEvent e :=
      earlyEvent_mem_single (by simp [EarlyEvent])
    have hC : ∀ e ∈ [Event.manifestValidate], EarlyEvent e :=
      earlyEvent_mem_single (by simp [EarlyEvent])
    have hD : ∀ e ∈ [Event.parseOk], EarlyEvent e :=
      earlyEvent_mem_single (by simp [EarlyEvent])
    by_cases hop : env.openOk elf = false
    · left
      intro e he
      simp only [mainRun, h1] at he
      rw [if_pos hop] at he
      exact earlyEvent_mem_append hP1 hA e he
    · rcases hnote : env.loadNote elf with _ | mft0
      · left
        intro e he
        simp only [mainRun, h1] at he
        rw [if_neg hop, hnote] at he
        dsimp only at he
        exact earlyEvent_mem_append (earlyEvent_mem_append hP1 hA) hB e he
      · by_cases hval : env.validateOk mft0 = false
        · left
          intro e he
          simp only [mainRun, h1] at he
          rw [if_neg hop, hnote] at he
          dsimp only at he
          rw [if_pos hval] at he
          exact earlyEvent_mem_append
            (earlyEvent_mem_append (earlyEvent_mem_append hP1 hA) hB) hC e he
        · rcases h2 : pass2 plugins mft0 DEFAULT_MEM argv with ⟨e2, r2⟩
          have h2' : pass2Go plugins argv.length mft0 DEFAULT_MEM argv
              = (e2, r2) := h2
          have hP2 : ∀ e ∈ e2, EarlyEvent e := fun e he =>
            earlyEvent_of_pass2
              (show e ∈ (pass2Go plugins argv.length mft0 DEFAULT_MEM argv).1 by
                rw [h2']; exact he)
          have hPre : ∀ e ∈ e1 ++ [Event.imageOpen elf] ++ [Event.manifestLoad]
              ++ [Event.manifestValidate] ++ e2, EarlyEvent e :=
            earlyEvent_mem_append (earlyEvent_mem_append
              (earlyEvent_mem_append (earlyEvent_mem_append hP1 hA) hB) hC) hP2
          cases r2 with
          | fatalExit =>
            left
            intro e he
            simp only [mainRun, h1] at he
            rw [if_neg hop, hnote] at he
            dsimp only at he
            rw [if_neg hval, h2] at he
            dsimp only at he
            exact hPre e he
          | nullDeref =>
            left
            intro e he
            simp only [mainRun, h1] at he
            rw [if_neg hop, hnote] at he
            dsimp only at he
            rw [if_neg hval, h2] at he
            dsimp only at he
            exact hPre e he
          | ok mem mftP rest =>
            by_cases hidx : argv.length - rest.length = idx
            · by_cases hsi : env.sigintOk = false
              · left
                intro e he
                simp only [mainRun, h1] at he
                rw [if_neg hop, hnote] at he
                dsimp only at he
                rw [if_neg hval, h2] at he
                dsimp only at he
                rw [if_pos hidx, if_pos hsi] at he
                exact earlyEvent_mem_append hPre hD e he
              · by_cases hst : env.sigtermOk = false
                · left
                  intro e he
                  simp only [mainRun, h1] at he
                  rw [if_neg hop, hnote] at he
                  dsimp only at he
                  rw [if_neg hval, h2] at he
                  dsimp only at he
                  rw [if_pos hidx, if_neg hsi, if_pos hst] at he
                  exact earlyEvent_mem_append hPre hD e he
                · right
                  have hval2 : env.validateOk mft0 = true := by
                    cases hx : env.validateOk mft0
                    · exact absurd hx hval
                    · rfl
                  have hop2 : env.openOk elf = true := by
                    cases hx : env.openOk elf
                    · exact absurd hx hop
                    · rfl
                  refine ⟨e1, elf, idx, mft0, e2, mem, mftP, rest, rfl, hop2,
                    hnote, hval2, h2, hidx, ?_⟩
                  rcases hsm : setup_modules plugins mftP with ⟨sevs, sres⟩
                  cases sres with
                  | none =>
                    left
                    refine ⟨rfl, ?_⟩
                    simp only [mainRun, h1]
                    rw [if_neg hop, hnote]
                    dsimp only
                    rw [if_neg hval, h2]
                    dsimp only
                    rw [if_pos hidx, if_neg hsi, if_neg hst, hsm]
                    dsimp only
                    simp [preEvents, List.append_assoc]
                  | some mftF =>
                    right
                    refine ⟨mftF, rfl, ?_⟩
                    simp only [mainRun, h1]
                    rw [if_neg hop, hnote]
                    dsimp only
                    rw [if_neg hval, h2]
                    dsimp only
                    rw [if_pos hidx, if_neg hsi, if_neg hst, hsm]
                    dsimp only
                    cases dp <;> simp [preEvents, List.append_assoc]
            · left
              intro e he
              simp only [mainRun, h1] at he
              rw [if_neg hop, hnote] at he
              dsimp only at he
              rw [if_neg hval, h2] at he
              dsimp only at he
              rw [if_neg hidx] at he
              exact hPre e he

theorem preEvents_mem {e1 : List Event} {elf : String} {e2 : List Event}
    {m2 : Nat} {e : Event} (he : e ∈ preEvents e1 elf e2 m2) :
    e ∈ e1 ∨ e ∈ e2
    ∨ e ∈ [Event.imageOpen elf, Event.manifestLoad, Event.manifestValidate,
        Event.parseOk, Event.sigInstall, Event.hvtInit m2, Event.imageLoad,
        Event.fdClose, Event.vcpuInit] := by
  simp only [preEvents, List.mem_append] at he
  rcases he with ((he | he) | he) | he
  · exact Or.inl he
  · right; right
    simp only [List.mem_cons, List.not_mem_nil, or_false] at he ⊢
    tauto
  · exact Or.inr (Or.inl he)
  · right; right
    simp only [List.mem_cons, List.not_mem_nil, or_false] at he ⊢
    tauto

theorem setup_modules_some {ps : List Plugin} {m mftF : Mft}
    (h : (setup_modules ps m).2 = some mftF) :
    (setup_modules ps m).1 = (List.range ps.length).map Event.setupCall
    ∧ unattached mftF.entries = [] := by
  rcases hrs : runSetups ps 0 m with ⟨evs, r⟩
  cases r with
  | none => simp [setup_modules, hrs] at h
  | some mft' =>
    simp only [setup_modules, hrs, auditLoop_eq, Bool.false_or] at h ⊢
    by_cases he : (unattached mft'.entries).isEmpty
    · have hnil : unattached mft'.entries = [] := by
        simpa [List.isEmpty_iff] using he
      rw [he] at h ⊢
      rw [if_neg (by decide : ¬(!true : Bool) = true)] at h ⊢
      have hmm : mft' = mftF := by
        simpa using h
      subst hmm
      rcases runSetups_shape ps 0 m with ⟨mftX, hX⟩ | ⟨k, hk, hX⟩
      · rw [hrs] at hX
        have hev : evs = (List.range' 0 ps.length).map Event.setupCall := by
          exact (Prod.mk.injEq _ _ _ _).mp hX |>.1
        rw [hev, hnil]
        simp [List.range_eq_range']
      · rw [hrs] at hX
        simp at hX
    · have he' : (!(unattached mft'.entries).isEmpty) = true := by
        simp [he]
      rw [he'] at h
      rw [if_pos rfl] at h
      simp at h

theorem suffix_drop_eq {r l : List String} (h : r <:+ l) :
    l.drop (l.length - r.length) = r := by
  obtain ⟨pre, rfl⟩ := h
  rw [List.length_append, Nat.add_sub_cancel, List.drop_left]

/-- C1: (a) whenever the privilege drop occurs in a run of `main`, the
trace ends `..., bootInfo, privDrop, vcpuLoop`: every earlier stage —
image open, manifest load and validation, option parsing (the `parseOk`
cursor check ending pass 2), signal-handler installation, `hvt_init`,
image load, fd close, VCPU init, and every plugin's `setup` — lies
strictly before the drop, boot-info construction immediately precedes
it, the handoff (`vcpuLoop`) immediately follows it, the process exits
with the handoff's return value, and the audit reported nothing.
(b) On any run where the attachment audit reports an unattached
non-reserved device (an `auditDiag` event), the process exits with code
1 and `privDrop` never occurs. -/
theorem privdrop_last_and_never_after_audit_failure
    (plugins : List Plugin) (env : Env) (dp : Bool) (argv : List String) :
    (Event.privDrop ∈ (mainRun plugins env dp argv).1 →
      ∃ pre r, (mainRun plugins env dp argv).1
          = pre ++ [Event.bootInfo r, Event.privDrop, Event.vcpuLoop]
        ∧ (mainRun plugins env dp argv).2 = Outcome.exited env.vcpuLoopRet
        ∧ (∃ p, Event.imageOpen p ∈ pre) ∧ Event.manifestLoad ∈ pre
        ∧ Event.manifestValidate ∈ pre ∧ Event.parseOk ∈ pre
        ∧ Event.sigInstall ∈ pre ∧ (∃ ms, Event.hvtInit ms ∈ pre)
        ∧ Event.imageLoad ∈ pre ∧ Event.fdClose ∈ pre ∧ Event.vcpuInit ∈ pre
        ∧ (∀ i < plugins.length, Event.setupCall i ∈ pre)
        ∧ Event.privDrop ∉ pre
        ∧ (∀ n t, Event.auditDiag n t ∉ (mainRun plugins env dp argv).1))
    ∧ (∀ n t, Event.auditDiag n t ∈ (mainRun plugins env dp argv).1 →
        (mainRun plugins env dp argv).2 = Outcome.exited 1
        ∧ Event.privDrop ∉ (mainRun plugins env dp argv).1) := by
  rcases mainRun_shape plugins env dp argv with hA |
    ⟨e1, elf, idx, mft0, e2, mem, mftP, rest, h1, hop, hnote, hval, h2, hidx, hC⟩
  · constructor
    · intro hp
      exact absurd rfl (earlyEvent_not_late (hA _ hp)).2.1
    · intro n t hp
      exact absurd rfl ((earlyEvent_not_late (hA _ hp)).2.2.2.2.2.1 n t)
  · have hP1 : ∀ e ∈ e1, EarlyEvent e := fun e he =>
      earlyEvent_of_pass1 (show e ∈ (pass1Go argv 0).1 by
        rw [show pass1Go argv 0 = (e1, Pass1Res.ok elf idx) from h1]; exact he)
    have hP2 : ∀ e ∈ e2, EarlyEvent e := fun e he =>
      earlyEvent_of_pass2
        (show e ∈ (pass2Go plugins argv.length mft0 DEFAULT_MEM argv).1 by
          rw [show pass2Go plugins argv.length mft0 DEFAULT_MEM argv
            = (e2, Pass2Res.ok mem mftP rest) from h2]; exact he)
    have hPreNoPd : Event.privDrop ∉ preEvents e1 elf e2 (env.adjMemSize mem) := by
      intro h
      rcases preEvents_mem h with h | h | h
      · exact absurd rfl (earlyEvent_not_late (hP1 _ h)).2.1
      · exact absurd rfl (earlyEvent_not_late (hP2 _ h)).2.1
      · simp at h
    have hPreNoAd : ∀ n t,
        Event.auditDiag n t ∉ preEvents e1 elf e2 (env.adjMemSize mem) := by
      intro n t h
      rcases preEvents_mem h with h | h | h
      · exact absurd rfl ((earlyEvent_not_late (hP1 _ h)).2.2.2.2.2.1 n t)
      · exact absurd rfl ((earlyEvent_not_late (hP2 _ h)).2.2.2.2.2.1 n t)
      · simp at h
    rcases hC with ⟨hnone, hmain⟩ | ⟨mftF, hsome, hmain⟩
    · have hnpd : Event.privDrop ∉ (mainRun plugins env dp argv).1 := by
        rw [hmain]
        intro h
        simp only [List.mem_append] at h
        rcases h with h | h
        · exact hPreNoPd h
        · rcases setup_modules_events plugins mftP _ h with ⟨i, hi⟩ | ⟨n, u, hi⟩ |
            ⟨n, t, hi⟩ | hi <;> simp at hi
      constructor
      · intro hp
        exact absurd hp hnpd
      · intro n t _
        exact ⟨by rw [hmain], hnpd⟩
    · obtain ⟨hsm1, hsmF⟩ := setup_modules_some hsome
      have hsmNoPd : Event.privDrop ∉ (setup_modules plugins mftP).1 := by
        rw [hsm1]
        intro h
        simp only [List.mem_map] at h
        obtain ⟨a, -, ha⟩ := h
        cases ha
      have hsmNoAd : ∀ n t, Event.auditDiag n t ∉ (setup_modules plugins mftP).1 := by
        intro n t h
        rw [hsm1] at h
        simp only [List.mem_map] at h
        obtain ⟨a, -, ha⟩ := h
        cases ha
      have hnad : ∀ n t, Event.auditDiag n t ∉ (mainRun plugins env dp argv).1 := by
        intro n t h
        rw [hmain] at h
        simp only [List.mem_append] at h
        rcases h with ((h | h) | h) | h
        · exact hPreNoAd n t h
        · exact hsmNoAd n t h
        · simp at h
        · cases dp <;> simp at h
      constructor
      · intro hp
        cases hdp : dp with
        | false =>
          exfalso
          subst hdp
          rw [hmain] at hp
          simp only [List.mem_append] at hp
          rcases hp with ((hp | hp) | hp) | hp
          · exact hPreNoPd hp
          · exact hsmNoPd hp
          · simp at hp
          · simp at hp
        | true =>
          subst hdp
          refine ⟨preEvents e1 elf e2 (env.adjMemSize mem)
            ++ (setup_modules plugins mftP).1, rest.tail, ?_, by rw [hmain], ?_,
            ?_, ?_, ?_, ?_, ?_, ?_, ?_, ?_, ?_, ?_, ?_⟩
          · rw [hmain]
            simp [List.append_assoc]
          · exact ⟨elf, by simp [preEvents]⟩
          · simp [preEvents]
          · simp [preEvents]
          · simp [preEvents]
          · simp [preEvents]
          · exact ⟨env.adjMemSize mem, by simp [preEvents]⟩
          · simp [preEvents]
          · simp [preEvents]
          · simp [preEvents]
          · intro i hi
            simp only [List.mem_append]
            right
            rw [hsm1]
            simp only [List.mem_map]
            exact ⟨i, by simpa using hi, rfl⟩
          · intro h
            simp only [List.mem_append] at h
            rcases h with h | h
            · exact hPreNoPd h
            · exact hsmNoPd h
          · exact hnad
      · intro n t h
        exact absurd h (hnad n t)

/-- Witness for C1's theorem: a run with no plugins and an empty
manifest reaches the drop and hands off with exit code 0; a run whose
manifest declares the unattached `net0` emits the audit diagnostic and
exits 1. -/
theorem privdrop_witness :
    (mainRun [] env0 true ["k"]).2 = Outcome.exited 0
    ∧ (mainRun [] envNet0 true ["k"]).2 = Outcome.exited 1 := by
  constructor
  · obtain ⟨pre, r, -, hout, -⟩ :=
      (privdrop_last_and_never_after_audit_failure [] env0 true ["k"]).1
        (by decide)
    exact hout
  · exact ((privdrop_last_and_never_after_audit_failure [] envNet0 true
      ["k"]).2 "net0" 2 (by decide)).1

/-- C6: for every argument vector whose first token is `--help`, `main`
prints usage and exits with code 1 during pass 1 — the whole trace is
the single `usageShown` event, so no image open (no `imageOpen` event,
hence no file descriptor) ever happens; with `--version` it prints the
version and exits 0, likewise before any open. -/
theorem help_version_exit_before_open
    (plugins : List Plugin) (env : Env) (dropPriv : Bool)
    (rest : List String) :
    mainRun plugins env dropPriv ("--help" :: rest)
      = ([Event.usageShown], Outcome.exited 1)
    ∧ mainRun plugins env dropPriv ("--version" :: rest)
      = ([Event.versionShown], Outcome.exited 0) := by
  constructor
  · have h1 : pass1 ("--help" :: rest) = ([Event.usageShown], Pass1Res.helpExit) := rfl
    simp [mainRun, h1]
  · have h1 : pass1 ("--version" :: rest)
        = ([Event.versionShown], Pass1Res.versionExit) := rfl
    simp [mainRun, h1]

/-- C3 (counterexample): with a single registered plugin whose
`handle_cmdarg` is present (and claims nothing), parsing
`["--mem=1", "k"]` in pass 2 sets the memory size for the token
`--mem=1` but never offers that token to the plugin: the only
dispatcher invocation in the trace is for the *following* token `k`.
This refutes the claim that the same `--mem=` token is offered to every
plugin's `handle_cmdarg`. -/
theorem mem_token_not_offered_counterexample :
    Event.memSet 1048576 ∈ (pass2 [recPlugin] mftEmpty DEFAULT_MEM ["--mem=1", "k"]).1
    ∧ Event.cmdargCall 0 "--mem=1" ∉ (pass2 [recPlugin] mftEmpty DEFAULT_MEM ["--mem=1", "k"]).1
    ∧ Event.cmdargCall 0 "k" ∈ (pass2 [recPlugin] mftEmpty DEFAULT_MEM ["--mem=1", "k"]).1
    ∧ (recPlugin.ops.handle_cmdarg).isSome = true := by
  refine ⟨by decide, by decide, by decide, by decide⟩

/-- C3 (amended): in pass 2, when the head token matches the `--mem=`
core-option syntax with a parsable value and another token follows,
both checks run in that iteration — the memory size is set *and*
`handle_cmdarg` is invoked — but the dispatcher is handed the
*following* token (the cursor advanced when `--mem=` was consumed),
never the `--mem=` token itself; every dispatcher invocation of the
iteration carries the following token. -/
theorem mem_iteration_offers_next_token
    (plugins : List Plugin) (mft : Mft) (ms m : Nat) (tok tok2 : String)
    (rest : List String)
    (hd : startsWithDash tok = true) (hm : isMemOpt tok = true)
    (hmem : handle_mem tok = some m) :
    ∃ tl : List Event × Pass2Res,
      pass2 plugins mft ms (tok :: tok2 :: rest)
        = (Event.memSet m :: (handle_cmdarg plugins tok2 mft).1 ++ tl.1, tl.2)
      ∧ ∀ e ∈ (handle_cmdarg plugins tok2 mft).1,
          ∃ k, e = Event.cmdargCall k tok2 := by
  have hne : tok ≠ "--" := by
    intro hc
    rw [hc] at hm
    exact absurd hm (by decide)
  have hoff : ∀ e ∈ (handle_cmdarg plugins tok2 mft).1,
      ∃ k, e = Event.cmdargCall k tok2 := by
    intro e he
    obtain ⟨k, hk, -⟩ := handle_cmdarg_events plugins tok2 mft e he
    exact ⟨k, hk⟩
  simp only [pass2, List.length_cons]
  simp only [pass2Go]
  rw [if_pos hd, if_neg hne, if_pos hm, hmem]
  dsimp only
  by_cases hc : (handle_cmdarg plugins tok2 mft).2.1 = 0
  · rw [if_pos hc]
    exact ⟨_, rfl, hoff⟩
  · rw [if_neg hc]
    exact ⟨_, rfl, hoff⟩

/-- Witness for C3's amended theorem at `["--mem=1", "k"]` with one
non-claiming plugin. -/
theorem mem_iteration_offers_next_token_witness :
    (pass2 [recPlugin] mftEmpty DEFAULT_MEM ["--mem=1", "k"]).1.head?
      = some (Event.memSet 1048576) := by
  obtain ⟨tl, heq, -⟩ := mem_iteration_offers_next_token [recPlugin] mftEmpty
    DEFAULT_MEM 1048576 "--mem=1" "k" [] (by decide) (by decide) (by decide)
  rw [heq]
  simp

/-- C7 (counterexample): in the run `mainRun [] env0 true ["kernel", "a"]`
the residual argument vector handed to `hvt_boot_info_init` is `["a"]` —
the image path token `kernel` is consumed by the `argc--; argv++` after
the cursor assert and is NOT part of the forwarded vector, refuting
"all tokens from it onward (including the image path itself) become the
residual argument vector". -/
theorem residual_excludes_image_path_counterexample :
    Event.bootInfo ["a"] ∈ (mainRun [] env0 true ["kernel", "a"]).1
    ∧ Event.bootInfo ["kernel", "a"] ∉ (mainRun [] env0 true ["kernel", "a"]).1 := by
  refine ⟨by decide, by decide⟩

/-- C9 (counterexample): in the run with one plugin claiming `--x`,
plugin code (its `handle_cmdarg`, invoked during pass 2) runs while the
image file descriptor is still open: the `cmdargCall` event precedes
the `fdClose` event in the trace. This refutes "the descriptor is
released before any plugin code runs". -/
theorem fd_open_during_plugin_cmdarg_counterexample :
    Event.cmdargCall 0 "--x" ∈ (mainRun [claimX] env0 true ["--x", "k"]).1
    ∧ Event.fdClose ∈ (mainRun [claimX] env0 true ["--x", "k"]).1
    ∧ (mainRun [claimX] env0 true ["--x", "k"]).1.indexOf (Event.cmdargCall 0 "--x")
        < (mainRun [claimX] env0 true ["--x", "k"]).1.indexOf Event.fdClose := by
  refine ⟨by decide, by decide, by decide⟩

/-- C9 (amended): in every run of `main` in which the image file
descriptor is closed, the `fdClose` event comes immediately after
`imageLoad` (nothing between `elf_load` and `close(elf_fd)`), and no
plugin `setup` call precedes it — plugin `setup` runs only after the
descriptor is released. (Plugin `handle_cmdarg` calls, by contrast,
run during pass 2 while the descriptor is open, as the counterexample
shows, so "before any plugin code" had to be weakened to "before any
plugin setup".) -/
theorem fd_closed_after_load_before_setup
    (plugins : List Plugin) (env : Env) (dp : Bool) (argv : List String)
    (h : Event.fdClose ∈ (mainRun plugins env dp argv).1) :
    ∃ pre post, (mainRun plugins env dp argv).1
        = pre ++ Event.imageLoad :: Event.fdClose :: post
      ∧ (∀ i, Event.setupCall i ∉ pre)
      ∧ Event.fdClose ∉ pre ∧ Event.imageLoad ∉ pre := by
  rcases mainRun_shape plugins env dp argv with hA |
    ⟨e1, elf, idx, mft0, e2, mem, mftP, rest, h1, hop, hnote, hval, h2, hidx, hC⟩
  · exact absurd rfl (earlyEvent_not_late (hA _ h)).2.2.1
  · have hP1 : ∀ e ∈ e1, EarlyEvent e := fun e he =>
      earlyEvent_of_pass1 (show e ∈ (pass1Go argv 0).1 by
        rw [show pass1Go argv 0 = (e1, Pass1Res.ok elf idx) from h1]; exact he)
    have hP2 : ∀ e ∈ e2, EarlyEvent e := fun e he =>
      earlyEvent_of_pass2
        (show e ∈ (pass2Go plugins argv.length mft0 DEFAULT_MEM argv).1 by
          rw [show pass2Go plugins argv.length mft0 DEFAULT_MEM argv
            = (e2, Pass2Res.ok mem mftP rest) from h2]; exact he)
    have hsplit : ∀ tail : List Event,
        preEvents e1 elf e2 (env.adjMemSize mem) ++ tail
          = (e1 ++ [Event.imageOpen elf, Event.manifestLoad,
              Event.manifestValidate] ++ e2
              ++ [Event.parseOk, Event.sigInstall,
                  Event.hvtInit (env.adjMemSize mem)])
            ++ Event.imageLoad :: Event.fdClose :: (Event.vcpuInit :: tail) := by
      intro tail
      simp [preEvents]
    have hpre : ∀ e ∈ e1 ++ [Event.imageOpen elf, Event.manifestLoad,
        Event.manifestValidate] ++ e2
        ++ [Event.parseOk, Event.sigInstall,
            Event.hvtInit (env.adjMemSize mem)],
        (∀ i, e ≠ Event.setupCall i) ∧ e ≠ Event.fdClose ∧ e ≠ Event.imageLoad := by
      intro e he
      simp only [List.mem_append] at he
      rcases he with ((he | he) | he) | he
      · have := earlyEvent_not_late (hP1 _ he)
        exact ⟨this.2.2.2.2.1, this.2.2.1, this.2.2.2.1⟩
      · simp only [List.mem_cons, List.not_mem_nil, or_false] at he
        rcases he with rfl | rfl | rfl <;>
          exact ⟨fun i => by simp, by simp, by simp⟩
      · have := earlyEvent_not_late (hP2 _ he)
        exact ⟨this.2.2.2.2.1, this.2.2.1, this.2.2.2.1⟩
      · simp only [List.mem_cons, List.not_mem_nil, or_false] at he
        rcases he with rfl | rfl | rfl <;>
          exact ⟨fun i => by simp, by simp, by simp⟩
    rcases hC with ⟨hnone, hmain⟩ | ⟨mftF, hsome, hmain⟩
    · refine ⟨e1 ++ [Event.imageOpen elf, Event.manifestLoad,
        Event.manifestValidate] ++ e2
        ++ [Event.parseOk, Event.sigInstall, Event.hvtInit (env.adjMemSize mem)],
        Event.vcpuInit :: (setup_modules plugins mftP).1, ?_, ?_, ?_, ?_⟩
      · rw [hmain, hsplit]
      · intro i hi
        exact absurd rfl ((hpre _ hi).1 i)
      · intro hi
        exact absurd rfl (hpre _ hi).2.1
      · intro hi
        exact absurd rfl (hpre _ hi).2.2
    · refine ⟨e1 ++ [Event.imageOpen elf, Event.manifestLoad,
        Event.manifestValidate] ++ e2
        ++ [Event.parseOk, Event.sigInstall, Event.hvtInit (env.adjMemSize mem)],
        Event.vcpuInit :: ((setup_modules plugins mftP).1
          ++ [Event.bootInfo rest.tail]
          ++ (if dp then [Event.privDrop, Event.vcpuLoop]
              else [Event.noPrivWarn, Event.vcpuLoop])), ?_, ?_, ?_, ?_⟩
      · rw [hmain, ← hsplit]
        simp [List.append_assoc]
      · intro i hi
        exact absurd rfl ((hpre _ hi).1 i)
      · intro hi
        exact absurd rfl (hpre _ hi).2.1
      · intro hi
        exact absurd rfl (hpre _ hi).2.2

/-- Witness for C9's amended theorem: a plugin-free run; the theorem
applies and its trace decomposition yields the membership facts. -/
theorem fd_closed_after_load_before_setup_witness :
    Event.imageLoad ∈ (mainRun [] env0 true ["k"]).1
    ∧ Event.fdClose ∈ (mainRun [] env0 true ["k"]).1 := by
  obtain ⟨pre, post, heq, -, -, -⟩ :=
    fd_closed_after_load_before_setup [] env0 true ["k"] (by decide)
  rw [heq]
  constructor
  · simp
  · simp

/-- C7 (amended): for every run accepted by both passes (pass 1 found
the image path at position `idx`, pass 2 returned successfully, and the
`assert(elf_filename == *argv)` pointer check holds, i.e. pass 2's
stopping position is `idx`), the remaining vector at which pass 2
stopped is exactly the original vector from the image-path token
onward — its head is the image path token itself — and the residual
vector forwarded to the guest via boot info is the tokens *strictly
after* the image path (the image path is consumed by the
`argc--; argv++` and not forwarded). -/
theorem pass2_stop_and_residual
    (plugins : List Plugin) (env : Env) (dp : Bool) (argv : List String)
    (e1 : List Event) (elf : String) (idx : Nat)
    (h1 : pass1 argv = (e1, Pass1Res.ok elf idx))
    (mft0 : Mft) (hnote : env.loadNote elf = some mft0)
    (e2 : List Event) (mem : Nat) (mftP : Mft) (rest : List String)
    (h2 : pass2 plugins mft0 DEFAULT_MEM argv = (e2, Pass2Res.ok mem mftP rest))
    (hidx : argv.length - rest.length = idx) :
    rest = argv.drop idx ∧ rest.head? = some elf
    ∧ ∀ r, Event.bootInfo r ∈ (mainRun plugins env dp argv).1 →
        r = argv.drop (idx + 1) := by
  have hsuf : rest <:+ argv :=
    pass2Go_ok_suffix plugins argv.length mft0 DEFAULT_MEM argv mem mftP rest
      (by rw [show pass2Go plugins argv.length mft0 DEFAULT_MEM argv
        = (e2, Pass2Res.ok mem mftP rest) from h2])
  have hdrop : argv.drop idx = rest := by
    rw [← hidx]
    exact suffix_drop_eq hsuf
  have hget : argv.get? idx = some elf := by
    have hg := pass1Go_ok_get argv 0 e1 elf idx h1
    simpa using hg.2
  have htail : rest.tail = argv.drop (idx + 1) := by
    rw [← hdrop, List.tail_drop]
  refine ⟨hdrop.symm, ?_, ?_⟩
  · rw [← hdrop, ← List.get?_zero, List.get?_drop]
    simpa using hget
  · intro r hr
    rcases mainRun_shape plugins env dp argv with hA |
      ⟨e1', elf', idx', mft0', e2', mem', mftP', rest', h1', hop', hnote',
        hval', h2', hidx', hC⟩
    · exact absurd rfl ((earlyEvent_not_late (hA _ hr)).1 r)
    · have hdet1 := h1.symm.trans h1'
      simp only [Prod.mk.injEq, Pass1Res.ok.injEq] at hdet1
      obtain ⟨rfl, rfl, rfl⟩ := hdet1
      have hdet2 := hnote.symm.trans hnote'
      simp only [Option.some.injEq] at hdet2
      subst hdet2
      have hdet3 := h2.symm.trans h2'
      simp only [Prod.mk.injEq, Pass2Res.ok.injEq] at hdet3
      obtain ⟨rfl, rfl, rfl, rfl⟩ := hdet3
      have hP1 : ∀ e ∈ e1, EarlyEvent e := fun e he =>
        earlyEvent_of_pass1 (show e ∈ (pass1Go argv 0).1 by
          rw [show pass1Go argv 0 = (e1, Pass1Res.ok elf idx) from h1]; exact he)
      have hP2 : ∀ e ∈ e2, EarlyEvent e := fun e he =>
        earlyEvent_of_pass2
          (show e ∈ (pass2Go plugins argv.length mft0 DEFAULT_MEM argv).1 by
            rw [show pass2Go plugins argv.length mft0 DEFAULT_MEM argv
              = (e2, Pass2Res.ok mem mftP rest) from h2]; exact he)
      have hPreNoBi : ∀ r', Event.bootInfo r'
          ∉ preEvents e1 elf e2 (env.adjMemSize mem) := by
        intro r' hh
        rcases preEvents_mem hh with hh | hh | hh
        · exact absurd rfl ((earlyEvent_not_late (hP1 _ hh)).1 r')
        · exact absurd rfl ((earlyEvent_not_late (hP2 _ hh)).1 r')
        · simp at hh
      rcases hC with ⟨hnone, hmain⟩ | ⟨mftF, hsome, hmain⟩
      · exfalso
        rw [hmain] at hr
        simp only [List.mem_append] at hr
        rcases hr with hr | hr
        · exact hPreNoBi r hr
        · rcases setup_modules_events plugins mftP _ hr with ⟨i, hi⟩ |
            ⟨n, u, hi⟩ | ⟨n, t, hi⟩ | hi <;> simp at hi
      · rw [hmain] at hr
        simp only [List.mem_append] at hr
        rcases hr with ((hr | hr) | hr) | hr
        · exact absurd hr (hPreNoBi r)
        · exfalso
          rcases setup_modules_events plugins mftP _ hr with ⟨i, hi⟩ |
            ⟨n, u, hi⟩ | ⟨n, t, hi⟩ | hi <;> simp at hi
        · simp only [List.mem_singleton, Event.bootInfo.injEq] at hr
          rw [hr, htail]
        · exfalso
          cases dp <;> simp at hr

/-- Witness for C7's amended theorem at `["kernel", "a"]` with no
plugins: the stop position is 0, the remaining vector starts at the
image path, and the forwarded residual is `["a"]`. -/
theorem pass2_stop_and_residual_witness :
    (["kernel", "a"] : List String) = ["kernel", "a"].drop 0
    ∧ (["kernel", "a"] : List String).head? = some "kernel" := by
  obtain ⟨hrest, hhead, -⟩ := pass2_stop_and_residual [] env0 true
    ["kernel", "a"] [] "kernel" 0 (by decide) mftEmpty (by decide)
    [] DEFAULT_MEM mftEmpty ["kernel", "a"] (by decide) (by decide)
  exact ⟨hrest, hhead⟩
